import Mathlib

/-!
Verification of the cantor compression-commitment-verification core
(python/cantor: compression/merkle.py, compression/encoder.py,
compression/delta.py, verification/verifier.py, verification/fraud.py,
core/config.py) against its natural-language specification.

Modelling conventions:
* byte strings are `List Nat`, one entry per byte;
* the external hash primitive (hashlib.sha256 / blake2b) is an explicit
  hash strategy `H : Bytes → Bytes` passed to every definition that hashes,
  mirroring the hash-function selection of the source;
* `Hc` is a concrete injective hash used to evaluate the definitions on
  concrete inputs;
* float arithmetic is modelled over `ℚ`; the float16 downcast of the lz4
  codec path is kept abstract as a bit-pattern map `toBits / fromBits`;
* Python exceptions are `Except Unit` results.
-/

namespace Cantor

abbrev Bytes := List Nat

/-- ASCII bytes of the domain separator b"empty" (merkle.py line 23). -/
def emptyBytes : Bytes := [101, 109, 112, 116, 121]

/-- ASCII bytes of the domain separator b"padding" (merkle.py line 35). -/
def paddingBytes : Bytes := [112, 97, 100, 100, 105, 110, 103]

/-- ASCII bytes of the domain separator b"zero" (merkle.py line 125). -/
def zeroBytes : Bytes := [122, 101, 114, 111]

/-- core/types.py MerkleProof. -/
structure MerkleProof where
  leaf_hash : Bytes
  path : List Bytes
  indices : List Nat
deriving DecidableEq

namespace MerkleDeltaTree

/-- Leaf hashing step of build (merkle.py line 27). -/
def hashLeaves (H : Bytes → Bytes) (deltas : List Bytes) : List Bytes :=
  deltas.map H

/-- Doubling loop of build (merkle.py lines 30 to 32): target_size starts at 1
and doubles while it is below n.  The loop runs at most n times, so fuel n is
enough for the loop to finish exactly as in the source. -/
def targetSizeGo (n : Nat) : Nat → Nat → Nat
  | 0, t => t
  | fuel + 1, t => if t < n then targetSizeGo n fuel (2 * t) else t

def targetSize (n : Nat) : Nat := targetSizeGo n n 1

/-- Padding loop of build (merkle.py lines 34 to 35): append the hash of
b"padding" until the leaf level reaches target_size. -/
def padLeaves (H : Bytes → Bytes) (leaves : List Bytes) : List Bytes :=
  leaves ++ List.replicate (targetSize leaves.length - leaves.length) (H paddingBytes)

/-- One bottom-up level of build (merkle.py lines 42 to 47): hash adjacent
pairs, duplicating the last node of a level of odd width. -/
def levelUp (H : Bytes → Bytes) : List Bytes → List Bytes
  | [] => []
  | [l] => [H (l ++ l)]
  | l :: r :: rest => H (l ++ r) :: levelUp H rest

/-- The while loop of build (merkle.py lines 41 to 49) collecting every level,
fuelled by the width of the starting level (each pass halves the width, so the
width is enough fuel). -/
def buildLevelsGo (H : Bytes → Bytes) : Nat → List Bytes → List (List Bytes)
  | 0, lvl => [lvl]
  | fuel + 1, lvl =>
    if lvl.length ≤ 1 then [lvl] else lvl :: buildLevelsGo H fuel (levelUp H lvl)

/-- MerkleDeltaTree.build (merkle.py lines 20 to 52).  Returns the root
together with the leaf level and the level list that the source stores in
mutable fields for later proof generation. -/
def build (H : Bytes → Bytes) (deltas : List Bytes) :
    Bytes × List Bytes × List (List Bytes) :=
  if deltas.isEmpty then (H emptyBytes, [], [])
  else
    let leaves := padLeaves H (hashLeaves H deltas)
    let tree := buildLevelsGo H leaves.length leaves
    ((tree.getLastD []).headD [], leaves, tree)

/-- Path collection loop of generate_proof (merkle.py lines 70 to 76): at each
level below the root record the sibling (current_index XOR 1) and the parity
of the sibling index, then halve the index. -/
def genPath : List (List Bytes) → Nat → List Bytes × List Nat
  | [], _ => ([], [])
  | lvl :: rest, ci =>
    let si := ci ^^^ 1
    if si < lvl.length then
      ((lvl.getD si []) :: (genPath rest (ci / 2)).1, (si % 2) :: (genPath rest (ci / 2)).2)
    else genPath rest (ci / 2)

/-- MerkleDeltaTree.generate_proof (merkle.py lines 57 to 90), restricted to
the MerkleProof it assembles; `none` models the IndexError raised when the
index is out of range.  (The source wraps the MerkleProof together with the
delta into a VerificationProof; the cryptographic content is the MerkleProof.) -/
def generate_proof (leaves : List Bytes) (tree : List (List Bytes)) (index : Nat) :
    Option MerkleProof :=
  if leaves.length ≤ index then none
  else
    let p := genPath tree.dropLast index
    some ⟨leaves.getD index [], p.1, p.2⟩

/-- Replay loop of verify_proof (merkle.py lines 96 to 100): on side bit 0 the
source hashes current followed by sibling, on side bit 1 sibling followed by
current. -/
def verifyFold (H : Bytes → Bytes) : Bytes → List (Bytes × Nat) → Bytes
  | cur, [] => cur
  | cur, (sib, i) :: rest =>
    if i = 0 then verifyFold H (H (cur ++ sib)) rest
    else verifyFold H (H (sib ++ cur)) rest

/-- MerkleDeltaTree.verify_proof (merkle.py lines 92 to 102). -/
def verify_proof (H : Bytes → Bytes) (pf : MerkleProof) (expected_root : Bytes) : Bool :=
  decide (verifyFold H pf.leaf_hash (pf.path.zip pf.indices) = expected_root)

end MerkleDeltaTree

/-- Mutable state of IncrementalMerkleTree (merkle.py lines 117 to 121). -/
structure IncTree where
  depth : Nat
  leaves : List Bytes
  filled : List (List Bytes)

namespace IncrementalMerkleTree

/-- The append loop of _compute_zeros (merkle.py lines 123 to 128): it runs
depth - 1 times, each time appending the hash of the doubled last entry. -/
def computeZerosGo (H : Bytes → Bytes) : Nat → List Bytes → List Bytes
  | 0, acc => acc
  | k + 1, acc => computeZerosGo H k (acc ++ [H (acc.getLastD [] ++ acc.getLastD [])])

/-- IncrementalMerkleTree._compute_zeros (merkle.py lines 123 to 128). -/
def computeZeros (H : Bytes → Bytes) (depth : Nat) : List Bytes :=
  computeZerosGo H (depth - 1) [H zeroBytes]

/-- Constructor state (merkle.py lines 117 to 121). -/
def init (depth : Nat) : IncTree := ⟨depth, [], List.replicate depth []⟩

/-- The level loop of get_root (merkle.py lines 152 to 158): combine with the
last filled node of the level when there is one, else with the zero hash of
the level. -/
def getRootFold (H : Bytes → Bytes) : List (List Bytes × Bytes) → Bytes → Bytes
  | [], cur => cur
  | (lvl, z) :: rest, cur =>
    if lvl.isEmpty then getRootFold H rest (H (cur ++ z))
    else getRootFold H rest (H (lvl.getLastD [] ++ cur))

/-- IncrementalMerkleTree.get_root (merkle.py lines 147 to 159). -/
def get_root (H : Bytes → Bytes) (t : IncTree) : Bytes :=
  if t.leaves.isEmpty then (computeZeros H t.depth).getLastD []
  else getRootFold H (t.filled.zip (computeZeros H t.depth)) (t.leaves.getLastD [])

/-- The level loop of insert (merkle.py lines 135 to 143): place the running
node in the first level of even width and stop; otherwise combine with that
level's last node and continue upward, returning the combined hash early when
the loop is at the last level. -/
def insertLoop (H : Bytes → Bytes) : List (List Bytes) → Bytes → List (List Bytes) × Option Bytes
  | [], _ => ([], none)
  | lvl :: rest, current =>
    if lvl.length % 2 = 0 then ((lvl ++ [current]) :: rest, none)
    else
      let current2 := H (lvl.getLastD [] ++ current)
      match rest with
      | [] => (lvl :: rest, some current2)
      | r0 :: rrest =>
        let r := insertLoop H (r0 :: rrest) current2
        (lvl :: r.1, r.2)

/-- IncrementalMerkleTree.insert (merkle.py lines 130 to 145): append the
leaf, run the level loop, and report either the early root or get_root of the
updated state. -/
def insert (H : Bytes → Bytes) (t : IncTree) (leaf : Bytes) : IncTree × Bytes :=
  let t2 : IncTree := ⟨t.depth, t.leaves ++ [leaf], (insertLoop H t.filled leaf).1⟩
  match (insertLoop H t.filled leaf).2 with
  | some r => (t2, r)
  | none => (t2, get_root H t2)

end IncrementalMerkleTree

/-- Injective encoding of a byte string into a natural number, used only to
build the concrete hash instantiation for evaluating the definitions. -/
def encodeList : List Nat → Nat
  | [] => 0
  | x :: xs => Nat.pair x (encodeList xs) + 1

/-- Concrete injective hash strategy standing in for hashlib.sha256 when the
definitions are evaluated on concrete inputs.  Any structural mismatch it
exposes (different hash inputs giving different digests) is the generic
behaviour of a collision-resistant hash. -/
def Hc : Bytes → Bytes := fun l => [encodeList l]

/-- Reference definition following the specification text of claim C3: the
root of the perfect depth-d tree whose first leaves are the inserted leaves
and whose remaining positions hold empty-subtree hashes, the leaf-level
empty-subtree hash being the hash of b"zero". -/
def reduceLevels (H : Bytes → Bytes) : Nat → List Bytes → List Bytes
  | 0, l => l
  | d + 1, l => reduceLevels H d (MerkleDeltaTree.levelUp H l)

/-- Spec-side perfect-tree root for claim C3 (not a source translation). -/
def specPerfectRoot (H : Bytes → Bytes) (depth : Nat) (leaves : List Bytes) : Bytes :=
  (reduceLevels H depth
    (leaves ++ List.replicate (2 ^ depth - leaves.length) (H zeroBytes))).headD []

/-- Codec method tag (encoder.py line 16). -/
inductive EncMethod
  | varint
  | huffman
  | lz4
deriving DecidableEq

/-- DeltaEncoder (encoder.py line 13).  The float16 downcast of the lz4 path
is kept abstract: toBits is the float32-to-float16 bit pattern and fromBits
the float16-to-float32 upcast of numpy.  The source does not store these; they
are carried here so the encoder is a self-contained value. -/
structure DeltaEncoder where
  method : EncMethod
  toBits : ℚ → Nat
  fromBits : Nat → ℚ

/-- The four magic bytes that begin an lz4 frame (external library lz4.frame). -/
def lz4Magic : Bytes := [4, 34, 77, 24]

/-- Model of lz4.frame.compress: a lossless frame holding the raw payload
behind the magic number and a length field. -/
def lz4Compress (raw : Bytes) : Bytes := lz4Magic ++ raw.length :: raw

/-- Model of lz4.frame.decompress: checks the magic number and the length
field, raising an error on malformed or truncated frames. -/
def lz4Decompress (data : Bytes) : Except Unit Bytes :=
  match data with
  | a :: b :: c :: d :: n :: rest =>
    if [a, b, c, d] = lz4Magic then
      if rest.length = n then .ok rest else .error ()
    else .error ()
  | _ => .error ()

/-- Little-endian two-byte serialization of 16-bit words (numpy tobytes on a
float16 array). -/
def serializeU16 (ws : List Nat) : Bytes := ws.flatMap (fun w => [w % 256, w / 256])

/-- numpy frombuffer with dtype float16: reads two-byte words, failing on a
buffer of odd length. -/
def bytesToU16 : Bytes → Option (List Nat)
  | [] => some []
  | [_] => none
  | lo :: hi :: rest => (bytesToU16 rest).map (fun t => (lo + 256 * hi) :: t)

namespace DeltaEncoder

/-- DeltaEncoder._encode_zigzag (encoder.py lines 104 to 106).  On a
non-overflowing int32, the source bit trick (n shifted left by 1) xor
(n shifted right by 31) equals 2n for n at least 0 and -2n - 1 otherwise. -/
def zigzagEncode (n : ℤ) : ℤ := if 0 ≤ n then 2 * n else -2 * n - 1

/-- DeltaEncoder._decode_zigzag (encoder.py lines 108 to 110): the source
computes (n shifted right by 1) xor (minus the low bit of n), which is n / 2
for even n and -(n / 2) - 1 for odd n. -/
def zigzagDecode (n : Nat) : ℤ :=
  if n % 2 = 0 then ((n / 2 : Nat) : ℤ) else -((n / 2 : Nat) : ℤ) - 1

/-- DeltaEncoder._encode_varint_single (encoder.py lines 112 to 119):
little-endian base-128 with a continuation bit; the mask with 0x7F is mod 128
and the shift by 7 is division by 128. -/
def encodeVarintSingle (n : Nat) : List Nat :=
  if n < 128 then [n]
  else (n % 128 + 128) :: encodeVarintSingle (n / 128)
termination_by n
decreasing_by exact Nat.div_lt_self (by omega) (by omega)

/-- DeltaEncoder._decode_varint_single (encoder.py lines 121 to 134): returns
the decoded value and the number of bytes consumed; a byte below 128 stops
the loop.  On input exhausted mid-varint the source simply stops, keeping the
partial value. -/
def decodeVarintSingle : List Nat → Nat × Nat
  | [] => (0, 0)
  | b :: rest =>
    if b < 128 then (b, 1)
    else
      let r := decodeVarintSingle rest
      (b % 128 + 128 * r.1, r.2 + 1)

/-- The inner zero-run counting loop of _encode_varint (encoder.py lines 57
to 61): counts leading zeros, capped at 255, and returns the remainder. -/
def countZeros : Nat → List ℤ → Nat × List ℤ
  | _, [] => (0, [])
  | 0, q :: qs => (0, q :: qs)
  | cap + 1, q :: qs =>
    if q = 0 then
      let r := countZeros cap qs
      (r.1 + 1, r.2)
    else (0, q :: qs)

/-- DeltaEncoder._encode_varint on the quantized integers (encoder.py lines
53 to 71): a zero opens a (zero marker, run length) pair, any other value is
zigzag mapped and varint encoded. -/
def encodeVarintInts : List ℤ → List Nat
  | [] => []
  | q :: qs =>
    if h : q = 0 then
      let r := countZeros 255 (q :: qs)
      0 :: r.1 :: encodeVarintInts r.2
    else encodeVarintSingle (zigzagEncode q).toNat ++ encodeVarintInts qs
termination_by l => l.length
decreasing_by
  · subst h
    have hlen : ∀ cap (l : List ℤ), (countZeros cap l).2.length ≤ l.length := by
      intro cap l
      induction l generalizing cap with
      | nil => cases cap <;> simp [countZeros]
      | cons a as ih =>
        cases cap with
        | zero => simp [countZeros]
        | succ c =>
          by_cases ha : a = 0
          · simp only [countZeros, ha, if_pos]
            exact Nat.le_succ_of_le (ih c)
          · simp [countZeros, ha]
    have hstep : (countZeros 255 ((0 : ℤ) :: qs)).2 = (countZeros 254 qs).2 := by
      simp [countZeros]
    simp only [hstep, List.length_cons]
    exact Nat.lt_succ_of_le (hlen 254 qs)
  · simp [Nat.lt_succ_self]

/-- The byte-consuming loop of _decode_varint (encoder.py lines 75 to 91).
A zero marker byte reads the following run length when there is one; the
guard at line 82 makes a dangling zero marker at the end of the input fall
through silently.  Any other byte is varint decoded and the cursor advances
by the consumed count. -/
def decodeVarintInts : List Nat → List ℤ
  | [] => []
  | b :: rest =>
    if b = 0 then
      match rest with
      | [] => []
      | c :: rest2 => List.replicate c 0 ++ decodeVarintInts rest2
    else
      let r := decodeVarintSingle (b :: rest)
      zigzagDecode r.1 :: decodeVarintInts (List.drop r.2 (b :: rest))
termination_by l => l.length
decreasing_by
  all_goals simp_wf
  · omega
  · simp only [decodeVarintSingle]
    split <;> simp

/-- DeltaEncoder._encode_varint (encoder.py lines 48 to 71): quantize each
component as round(x * 1000) and encode the integers. -/
def encode_varint (v : List ℚ) : Bytes :=
  encodeVarintInts (v.map (fun x => round (x * (1000 : ℚ))))

/-- DeltaEncoder._decode_varint (encoder.py lines 73 to 92): decode the
integers and divide by 1000.  It is total: no input makes it raise. -/
def decode_varint (data : Bytes) : List ℚ :=
  (decodeVarintInts data).map (fun z : ℤ => (z : ℚ) / 1000)

/-- DeltaEncoder._encode_lz4 (encoder.py lines 94 to 97): downcast each
component to float16 and compress the two-byte words. -/
def encode_lz4 (toBits : ℚ → Nat) (v : List ℚ) : Bytes :=
  lz4Compress (serializeU16 (v.map toBits))

/-- DeltaEncoder._decode_lz4 (encoder.py lines 99 to 102): decompress, read
the float16 words, upcast each back to float32. -/
def decode_lz4 (fromBits : Nat → ℚ) (data : Bytes) : Except Unit (List ℚ) :=
  match lz4Decompress data with
  | .error e => .error e
  | .ok raw =>
    match bytesToU16 raw with
    | none => .error ()
    | some ws => .ok (ws.map fromBits)

/-- DeltaEncoder.encode (encoder.py lines 19 to 26): method dispatch, any
unknown method falling back to lz4. -/
def encode (e : DeltaEncoder) (v : List ℚ) : Bytes :=
  match e.method with
  | .varint => encode_varint v
  | .lz4 => encode_lz4 e.toBits v
  | .huffman => encode_lz4 e.toBits v

/-- DeltaEncoder.decode (encoder.py lines 28 to 35): the varint path cannot
raise, the lz4 path propagates decompression errors as exceptions. -/
def decode (e : DeltaEncoder) (data : Bytes) : Except Unit (List ℚ) :=
  match e.method with
  | .varint => .ok (decode_varint data)
  | .lz4 => decode_lz4 e.fromBits data
  | .huffman => decode_lz4 e.fromBits data

/-- DeltaEncoder.encode_full (encoder.py lines 37 to 40): flag byte 1 then
the lz4 encoding of the full state vector. -/
def encode_full (e : DeltaEncoder) (v : List ℚ) : Bytes := 1 :: encode_lz4 e.toBits v

/-- DeltaEncoder.decode_full (encoder.py lines 42 to 46); indexing an empty
byte string raises IndexError. -/
def decode_full (e : DeltaEncoder) (data : Bytes) : Except Unit (List ℚ) :=
  match data with
  | [] => .error ()
  | b :: rest => if b = 1 then decode_lz4 e.fromBits rest else decode e data

end DeltaEncoder

/-- verifier.py VerificationStatus (lines 26 to 31). -/
inductive VerificationStatus
  | VALID
  | INVALID_MERKLE
  | INVALID_PREDICTION
  | INVALID_DELTA
  | MODEL_MISMATCH
deriving DecidableEq

/-- verifier.py VerificationResult (lines 34 to 40). -/
structure VerificationResult where
  status : VerificationStatus
  message : String
  tx_hash : Option Bytes := none
  expected_state : Option Bytes := none
  actual_state : Option Bytes := none
deriving DecidableEq

/-- core/types.py StateDelta; the state vectors are lists of rationals, so
confidence is a rational as well. -/
structure StateDelta where
  tx_hash : Bytes
  predicted_root : Bytes
  actual_root : Bytes
  delta_bytes : Bytes
  confidence : ℚ
deriving DecidableEq

/-- core/types.py VerificationProof. -/
structure VerificationProof where
  tx_hash : Bytes
  predicted_state : Bytes
  delta : StateDelta
  merkle_proof : MerkleProof
  model_version : String
deriving DecidableEq

/-- core/types.py CompressionResult (the fields verification consumes). -/
structure CompressionResult where
  block_number : Nat
  original_size : Nat
  compressed_size : Nat
  delta_tree_root : Bytes
  deltas : List StateDelta
  proofs : List VerificationProof

/-- verifier.py StateVerifier state (lines 46 to 58).  The model is kept as
its prediction head, an opaque function; tolerance is stored by the
constructor and, as claim C10 records, never read afterwards. -/
structure StateVerifier where
  predictFn : List ℚ → List ℚ
  model_version : String
  device : String
  tolerance : ℚ
  encoder : DeltaEncoder

/-- StateVerifier.__init__ (verifier.py lines 46 to 58): stores the arguments
and a DeltaEncoder() built with its default lz4 method; the bit-pattern maps
stand for numpy's float16 casts. -/
def StateVerifier.init (predictFn : List ℚ → List ℚ) (model_version device : String)
    (tolerance : ℚ) (tb : ℚ → Nat) (fb : Nat → ℚ) : StateVerifier :=
  ⟨predictFn, model_version, device, tolerance, ⟨.lz4, tb, fb⟩⟩

/-- numpy addition of two one-dimensional arrays, as performed by
reconstructed = predicted + delta (verifier.py line 103): operands of equal
length add elementwise, a length-1 operand broadcasts across the other, and
any other length mismatch raises a broadcast ValueError. -/
def numpyAdd (a b : List ℚ) : Except Unit (List ℚ) :=
  if a.length = b.length then .ok (List.zipWith (fun x y => x + y) a b)
  else if b.length = 1 then .ok (a.map (fun x => x + b.headD 0))
  else if a.length = 1 then .ok (b.map (fun x => a.headD 0 + x))
  else .error ()

/-- StateVerifier.verify_proof (verifier.py lines 60 to 119), parametrized by
the state-vector hash vh (_compute_hash, sha256 over the raw float bytes) and
by the merkle hash strategy H (the check builds MerkleDeltaTree() with its
default sha256).  The source returns on the first failing check, in the fixed
order version, merkle, prediction, delta; the decode call of the delta check
and the numpy addition of the reconstruction can raise, which the Except
propagates. -/
def StateVerifier.verify_proof (vh : List ℚ → Bytes) (H : Bytes → Bytes)
    (sv : StateVerifier) (proof : VerificationProof) (sequence : List ℚ)
    (expected_root : Bytes) : Except Unit VerificationResult :=
  if proof.model_version = sv.model_version then
    if MerkleDeltaTree.verify_proof H proof.merkle_proof expected_root then
      let predicted := sv.predictFn sequence
      let predicted_hash := vh predicted
      if predicted_hash = proof.predicted_state then
        match DeltaEncoder.decode sv.encoder proof.delta.delta_bytes with
        | .error e => .error e
        | .ok delta =>
          match numpyAdd predicted delta with
          | .error e => .error e
          | .ok reconstructed =>
            let reconstructed_hash := vh reconstructed
            if reconstructed_hash = proof.delta.actual_root then
              .ok ⟨.VALID, "Proof verified successfully", some proof.tx_hash, none, none⟩
            else
              .ok ⟨.INVALID_DELTA, "Reconstructed state does not match actual",
                some proof.tx_hash, some proof.delta.actual_root, some reconstructed_hash⟩
      else
        .ok ⟨.INVALID_PREDICTION, "Predicted state does not match",
          some proof.tx_hash, some proof.predicted_state, some predicted_hash⟩
    else
      .ok ⟨.INVALID_MERKLE, "Merkle proof verification failed",
        some proof.tx_hash, none, none⟩
  else
    .ok ⟨.MODEL_MISMATCH,
      "Model version mismatch: " ++ proof.model_version ++ " != " ++ sv.model_version,
      some proof.tx_hash, none, none⟩

/-- Status of a verification outcome; none when the call raised. -/
def statusOf (e : Except Unit VerificationResult) : Option VerificationStatus :=
  match e with
  | .ok r => some r.status
  | .error _ => none

/-- The per-transaction loop of verify_block (verifier.py lines 127 to 143):
logging aside, each (proof, sequence) pair is verified in order; an exception
raised by any single verification propagates out of the loop. -/
def verifyBlockGo (vh : List ℚ → Bytes) (H : Bytes → Bytes) (sv : StateVerifier)
    (root : Bytes) :
    List (VerificationProof × List ℚ) → Except Unit (List VerificationResult)
  | [] => .ok []
  | (p, s) :: rest =>
    match StateVerifier.verify_proof vh H sv p s root with
    | .error e => .error e
    | .ok r =>
      match verifyBlockGo vh H sv root rest with
      | .error e => .error e
      | .ok rs => .ok (r :: rs)

/-- StateVerifier.verify_block (verifier.py lines 121 to 153). -/
def StateVerifier.verify_block (vh : List ℚ → Bytes) (H : Bytes → Bytes)
    (sv : StateVerifier) (result : CompressionResult) (sequences : List (List ℚ)) :
    Except Unit (List VerificationResult) :=
  verifyBlockGo vh H sv result.delta_tree_root (result.proofs.zip sequences)

/-- fraud.py FraudType (lines 24 to 28). -/
inductive FraudType
  | INVALID_MERKLE_ROOT
  | PREDICTION_MISMATCH
  | DELTA_MANIPULATION
  | STATE_RECONSTRUCTION_FAILURE
deriving DecidableEq

/-- fraud.py FraudProof (lines 31 to 42). -/
structure FraudProof where
  fraud_type : FraudType
  block_number : Nat
  tx_index : Nat
  tx_hash : Bytes
  claimed_root : Bytes
  actual_root : Bytes
  evidence : Bytes
  description : String
deriving DecidableEq

namespace FraudProofGenerator

/-- FraudProofGenerator._map_status_to_fraud_type (fraud.py lines 136 to
144): statuses absent from the mapping (VALID, MODEL_MISMATCH) give none. -/
def map_status_to_fraud_type (status : VerificationStatus) : Option FraudType :=
  match status with
  | .INVALID_MERKLE => some .INVALID_MERKLE_ROOT
  | .INVALID_PREDICTION => some .PREDICTION_MISMATCH
  | .INVALID_DELTA => some .DELTA_MANIPULATION
  | _ => none

/-- FraudProofGenerator._serialize_evidence (fraud.py lines 146 to 169):
tx_hash, predicted state hash, delta bytes, the sibling path, and the packed
side-indicator bytes. -/
def serialize_evidence (proof : VerificationProof) : Bytes :=
  proof.tx_hash ++ proof.predicted_state ++ proof.delta.delta_bytes
    ++ proof.merkle_proof.path.flatten ++ proof.merkle_proof.indices

/-- FraudProofGenerator._generate_fraud_proof (fraud.py lines 105 to 134);
the isinstance guard always passes for results produced by verify_block. -/
def generate_fraud_proof (block_number tx_index : Nat) (proof : VerificationProof)
    (vr : VerificationResult) (claimed_root : Bytes) : Option FraudProof :=
  match map_status_to_fraud_type vr.status with
  | none => none
  | some ft =>
    some ⟨ft, block_number, tx_index, proof.tx_hash, claimed_root,
      vr.actual_state.getD [], serialize_evidence proof, vr.message⟩

/-- The enumeration loop of detect_fraud (fraud.py lines 82 to 94): skip
VALID outcomes, emit the generated fraud proof when there is one. -/
def fraudsFrom (block_number : Nat) (claimed_root : Bytes) :
    Nat → List (VerificationResult × VerificationProof) → List FraudProof
  | _, [] => []
  | i, (vr, pf) :: rest =>
    if vr.status = .VALID then fraudsFrom block_number claimed_root (i + 1) rest
    else
      match generate_fraud_proof block_number i pf vr claimed_root with
      | some f => f :: fraudsFrom block_number claimed_root (i + 1) rest
      | none => fraudsFrom block_number claimed_root (i + 1) rest

/-- FraudProofGenerator.detect_fraud (fraud.py lines 69 to 103). -/
def detect_fraud (vh : List ℚ → Bytes) (H : Bytes → Bytes) (sv : StateVerifier)
    (result : CompressionResult) (sequences : List (List ℚ)) :
    Except Unit (List FraudProof) :=
  match StateVerifier.verify_block vh H sv result sequences with
  | .error e => .error e
  | .ok vrs =>
    .ok (fraudsFrom result.block_number result.delta_tree_root 0 (vrs.zip result.proofs))

end FraudProofGenerator

/-- core/config.py CompressionConfig (lines 23 to 29). -/
structure CompressionConfig where
  delta_threshold : ℚ := 1 / 100
  min_confidence : ℚ := 7 / 10
  adaptive_threshold : Bool := true
  encoding : EncMethod := .lz4

namespace DeltaCompressor

/-- DeltaCompressor._adaptive_threshold (delta.py lines 136 to 150). -/
def adaptiveThreshold (cfg : CompressionConfig) (confidence : ℚ) : ℚ :=
  if ¬ cfg.adaptive_threshold then cfg.delta_threshold
  else if confidence > 0.9 then cfg.delta_threshold * 2
  else if confidence > 0.7 then cfg.delta_threshold * 1.5
  else if confidence > 0.5 then cfg.delta_threshold
  else cfg.delta_threshold * 0.5

end DeltaCompressor

/-- Concrete state-vector hash for evaluation (stands in for _compute_hash). -/
def vhC : List ℚ → Bytes := fun v => [v.length]

/-- Constant float16 bit-pattern maps for evaluation. -/
def tbC : ℚ → Nat := fun _ => 0

def fbC : Nat → ℚ := fun _ => 0

/-- Predictor that always predicts the empty vector, for evaluation. -/
def predC : List ℚ → List ℚ := fun _ => []

/-- Concrete verifier at model version v1.0. -/
def svC : StateVerifier := StateVerifier.init predC "v1.0" "cpu" (1 / 100000) tbC fbC

/-- A delta whose delta_bytes were produced by the full-state fallback
encode_full: flag byte 1 followed by an lz4 frame. -/
def deltaC : StateDelta :=
  ⟨[9], [0], [0], DeltaEncoder.encode_full ⟨.lz4, tbC, fbC⟩ [], 0⟩

/-- A proof passing the version, merkle (empty path, leaf equal to the
expected root [0]) and prediction checks, whose delta bytes are the
encode_full output. -/
def proofC : VerificationProof :=
  ⟨[9], vhC (predC []), deltaC, ⟨[0], [], []⟩, "v1.0"⟩

/-- proofC with a different model version. -/
def proofD : VerificationProof :=
  ⟨[9], vhC (predC []), deltaC, ⟨[0], [], []⟩, "v2.0"⟩

/-- A delta and proof rejected by the merkle check, for evaluation. -/
def deltaM : StateDelta := ⟨[7], [0], [0], [0], 0⟩

def proofM : VerificationProof := ⟨[7], [0], deltaM, ⟨[1], [], []⟩, "v1.0"⟩

/-- A one-transaction block whose stored root [2] does not match proofM. -/
def resC : CompressionResult := ⟨1, 0, 0, [2], [deltaM], [proofM]⟩

/-- The verification outcome of proofM against resC. -/
def vrM : VerificationResult :=
  ⟨.INVALID_MERKLE, "Merkle proof verification failed", some [7], none, none⟩

/-- C1: evaluation at the failing input.  For the two-leaf tree over the
distinct byte strings [0] and [1], the proof generated for index 0 is
rejected by verify_proof against the root returned by build: generate_proof
stores the sibling's side parity, but verify_proof hashes current before
sibling exactly when that bit is 0, so it recomputes the hash of
sibling followed by leaf where build hashed leaf followed by sibling. -/
theorem C1_verify_rejects_generated_proof :
    (MerkleDeltaTree.generate_proof
        (MerkleDeltaTree.build Hc [[0], [1]]).2.1
        (MerkleDeltaTree.build Hc [[0], [1]]).2.2 0).map
      (fun pf => MerkleDeltaTree.verify_proof Hc pf (MerkleDeltaTree.build Hc [[0], [1]]).1)
      = some false := by
  rfl

/-- C3: evaluation at the failing inputs, depth 2.  get_root of the empty
tree returns the last zero hash (the top-level one), not the bottom-level
hash of b"zero"; and after one insert the root pairs the inserted leaf with
itself instead of with the leaf-level zero hash, so it differs from the root
of the perfect depth-2 tree with that single leaf. -/
theorem C3_incremental_root_diverges :
    IncrementalMerkleTree.get_root Hc (IncrementalMerkleTree.init 2)
        = Hc (Hc zeroBytes ++ Hc zeroBytes)
    ∧ IncrementalMerkleTree.get_root Hc (IncrementalMerkleTree.init 2) ≠ Hc zeroBytes
    ∧ IncrementalMerkleTree.get_root Hc
        (IncrementalMerkleTree.insert Hc (IncrementalMerkleTree.init 2) [5]).1
        ≠ specPerfectRoot Hc 2 [[5]] := by
  exact ⟨rfl, by decide, by decide⟩

/-- C4 counterexample: build([x]) does not pad the leaf level to size 2 with
the padding-domain hash; for x = [0] the stored leaf level is the single
hash of x. -/
theorem C4_no_padding_for_singleton :
    (MerkleDeltaTree.build Hc [[0]]).2.1 = [Hc [0]]
    ∧ (MerkleDeltaTree.build Hc [[0]]).2.1 ≠ [Hc [0], Hc paddingBytes] := by
  exact ⟨rfl, by decide⟩

/-- C4 amended: build([]) returns the hash of b"empty"; build([x]) keeps the
leaf level at the single hash of x (target size 1, no padding), the root is
that leaf hash, and the index-0 proof has an empty path, which verify_proof
accepts against the returned root. -/
theorem C4_empty_and_singleton_boundaries (H : Bytes → Bytes) (x : Bytes) :
    (MerkleDeltaTree.build H []).1 = H emptyBytes
    ∧ (MerkleDeltaTree.build H [x]).2.1 = [H x]
    ∧ (MerkleDeltaTree.build H [x]).1 = H x
    ∧ (MerkleDeltaTree.generate_proof (MerkleDeltaTree.build H [x]).2.1
        (MerkleDeltaTree.build H [x]).2.2 0).map
        (fun pf => MerkleDeltaTree.verify_proof H pf (MerkleDeltaTree.build H [x]).1)
        = some true := by
  refine ⟨rfl, rfl, rfl, ?_⟩
  exact congrArg some (decide_eq_true rfl)

theorem zigzag_roundtrip (q : ℤ) :
    DeltaEncoder.zigzagDecode (DeltaEncoder.zigzagEncode q).toNat = q := by
  unfold DeltaEncoder.zigzagEncode DeltaEncoder.zigzagDecode
  split_ifs <;> omega

theorem zigzagEncode_toNat_pos (q : ℤ) (h : q ≠ 0) :
    1 ≤ (DeltaEncoder.zigzagEncode q).toNat := by
  unfold DeltaEncoder.zigzagEncode
  split_ifs <;> omega

theorem encodeVarintSingle_small (n : Nat) (h : n < 128) :
    DeltaEncoder.encodeVarintSingle n = [n] := by
  rw [DeltaEncoder.encodeVarintSingle]
  simp [h]

theorem encodeVarintSingle_large (n : Nat) (h : ¬ n < 128) :
    DeltaEncoder.encodeVarintSingle n
      = (n % 128 + 128) :: DeltaEncoder.encodeVarintSingle (n / 128) := by
  rw [DeltaEncoder.encodeVarintSingle]
  simp [h]

theorem encodeVarintSingle_spec (n : Nat) : ∀ tail,
    DeltaEncoder.decodeVarintSingle (DeltaEncoder.encodeVarintSingle n ++ tail)
      = (n, (DeltaEncoder.encodeVarintSingle n).length) := by
  induction n using Nat.strong_induction_on with
  | _ n ih =>
    intro tail
    by_cases h : n < 128
    · rw [encodeVarintSingle_small n h]
      simp [DeltaEncoder.decodeVarintSingle, h]
    · rw [encodeVarintSingle_large n h]
      have hrec := ih (n / 128) (Nat.div_lt_self (by omega) (by omega)) tail
      rw [List.cons_append]
      simp only [DeltaEncoder.decodeVarintSingle]
      rw [if_neg (by omega : ¬ (n % 128 + 128 < 128))]
      simp only [hrec, List.length_cons, Prod.mk.injEq]
      refine ⟨by omega, trivial⟩

theorem encodeVarintSingle_head (n : Nat) (h : 1 ≤ n) :
    ∃ b t, DeltaEncoder.encodeVarintSingle n = b :: t ∧ b ≠ 0 := by
  by_cases h1 : n < 128
  · exact ⟨n, [], encodeVarintSingle_small n h1, by omega⟩
  · exact ⟨n % 128 + 128, _, encodeVarintSingle_large n h1, by omega⟩

theorem countZeros_step (c : Nat) (qs : List ℤ) :
    DeltaEncoder.countZeros (c + 1) ((0 : ℤ) :: qs)
      = ((DeltaEncoder.countZeros c qs).1 + 1, (DeltaEncoder.countZeros c qs).2) := by
  simp [DeltaEncoder.countZeros]

theorem countZeros_spec : ∀ (cap : Nat) (l : List ℤ),
    List.replicate (DeltaEncoder.countZeros cap l).1 (0 : ℤ)
      ++ (DeltaEncoder.countZeros cap l).2 = l := by
  intro cap l
  induction l generalizing cap with
  | nil => cases cap <;> simp [DeltaEncoder.countZeros]
  | cons q qs ih =>
    cases cap with
    | zero => simp [DeltaEncoder.countZeros]
    | succ c =>
      by_cases hq : q = 0
      · subst hq
        rw [countZeros_step c qs]
        simp only [List.replicate_succ, List.cons_append, List.cons.injEq, true_and]
        exact ih c
      · simp [DeltaEncoder.countZeros, hq]

theorem countZeros_len (cap : Nat) (l : List ℤ) :
    (DeltaEncoder.countZeros cap l).2.length + (DeltaEncoder.countZeros cap l).1
      = l.length := by
  have h := congrArg List.length (countZeros_spec cap l)
  simp only [List.length_append, List.length_replicate] at h
  omega

theorem countZeros_pos (c : Nat) (qs : List ℤ) :
    1 ≤ (DeltaEncoder.countZeros (c + 1) ((0 : ℤ) :: qs)).1 := by
  rw [countZeros_step c qs]
  omega

theorem encodeVarintInts_nil : DeltaEncoder.encodeVarintInts [] = [] := by
  rw [DeltaEncoder.encodeVarintInts.eq_def]

theorem decodeVarintInts_nil : DeltaEncoder.decodeVarintInts [] = [] := by
  rw [DeltaEncoder.decodeVarintInts.eq_def]

theorem encodeVarintInts_zero (qs : List ℤ) :
    DeltaEncoder.encodeVarintInts ((0 : ℤ) :: qs)
      = 0 :: (DeltaEncoder.countZeros 255 ((0 : ℤ) :: qs)).1
          :: DeltaEncoder.encodeVarintInts (DeltaEncoder.countZeros 255 ((0 : ℤ) :: qs)).2 := by
  rw [DeltaEncoder.encodeVarintInts.eq_def]
  simp

theorem encodeVarintInts_nonzero (q : ℤ) (hq : q ≠ 0) (qs : List ℤ) :
    DeltaEncoder.encodeVarintInts (q :: qs)
      = DeltaEncoder.encodeVarintSingle (DeltaEncoder.zigzagEncode q).toNat
        ++ DeltaEncoder.encodeVarintInts qs := by
  rw [DeltaEncoder.encodeVarintInts.eq_def]
  simp [hq]

theorem decodeVarintInts_zero_marker (c : Nat) (rest : List Nat) :
    DeltaEncoder.decodeVarintInts (0 :: c :: rest)
      = List.replicate c (0 : ℤ) ++ DeltaEncoder.decodeVarintInts rest := by
  rw [DeltaEncoder.decodeVarintInts.eq_def]
  simp

theorem decodeVarintInts_nonzero (b : Nat) (hb : b ≠ 0) (rest : List Nat) :
    DeltaEncoder.decodeVarintInts (b :: rest)
      = DeltaEncoder.zigzagDecode (DeltaEncoder.decodeVarintSingle (b :: rest)).1
        :: DeltaEncoder.decodeVarintInts
            (List.drop (DeltaEncoder.decodeVarintSingle (b :: rest)).2 (b :: rest)) := by
  rw [DeltaEncoder.decodeVarintInts.eq_def]
  simp [hb]

theorem decodeVarintInts_encode (qs : List ℤ) :
    DeltaEncoder.decodeVarintInts (DeltaEncoder.encodeVarintInts qs) = qs := by
  suffices h : ∀ n (qs : List ℤ), qs.length ≤ n →
      DeltaEncoder.decodeVarintInts (DeltaEncoder.encodeVarintInts qs) = qs from
    h qs.length qs le_rfl
  intro n
  induction n with
  | zero =>
    intro qs hlen
    have hq : qs = [] := List.eq_nil_of_length_eq_zero (by omega)
    subst hq
    rw [encodeVarintInts_nil, decodeVarintInts_nil]
  | succ n ih =>
    intro qs hlen
    match qs with
    | [] => rw [encodeVarintInts_nil, decodeVarintInts_nil]
    | q :: qs2 =>
      by_cases hq : q = 0
      · subst hq
        rw [encodeVarintInts_zero qs2, decodeVarintInts_zero_marker]
        have hrest : (DeltaEncoder.countZeros 255 ((0 : ℤ) :: qs2)).2.length ≤ n := by
          have h1 := countZeros_len 255 ((0 : ℤ) :: qs2)
          have h2 : 1 ≤ (DeltaEncoder.countZeros 255 ((0 : ℤ) :: qs2)).1 :=
            countZeros_pos 254 qs2
          simp only [List.length_cons] at h1 hlen
          omega
        rw [ih _ hrest]
        exact countZeros_spec 255 ((0 : ℤ) :: qs2)
      · have hm := zigzagEncode_toNat_pos q hq
        obtain ⟨b, t, hbt, hb⟩ := encodeVarintSingle_head _ hm
        have hsingle := encodeVarintSingle_spec (DeltaEncoder.zigzagEncode q).toNat
          (DeltaEncoder.encodeVarintInts qs2)
        rw [encodeVarintInts_nonzero q hq qs2, hbt, List.cons_append]
        rw [hbt, List.cons_append] at hsingle
        rw [decodeVarintInts_nonzero b hb, hsingle]
        dsimp only
        have hdrop : List.drop (b :: t).length
            (b :: (t ++ DeltaEncoder.encodeVarintInts qs2))
            = DeltaEncoder.encodeVarintInts qs2 := by
          have hd := List.drop_left (b :: t) (DeltaEncoder.encodeVarintInts qs2)
          exact hd
        rw [hdrop]
        rw [ih qs2 (by simp only [List.length_cons] at hlen; omega)]
        rw [zigzag_roundtrip q]

theorem decodeVarint_encodeVarint (v : List ℚ) :
    DeltaEncoder.decode_varint (DeltaEncoder.encode_varint v)
      = v.map (fun x => ((round (x * (1000 : ℚ)) : ℤ) : ℚ) / 1000) := by
  unfold DeltaEncoder.encode_varint DeltaEncoder.decode_varint
  rw [decodeVarintInts_encode, List.map_map]
  rfl

theorem quantize_abs_le (x : ℚ) :
    |((round (x * (1000 : ℚ)) : ℤ) : ℚ) / 1000 - x| ≤ 5 / 10000 := by
  have h := abs_sub_round (x * (1000 : ℚ))
  rw [abs_sub_comm] at h
  have heq : ((round (x * (1000 : ℚ)) : ℤ) : ℚ) / 1000 - x
      = (((round (x * (1000 : ℚ)) : ℤ) : ℚ) - x * 1000) / 1000 := by ring
  rw [heq, abs_div]
  rw [show |(1000 : ℚ)| = 1000 from by norm_num]
  rw [div_le_div_iff₀ (by norm_num) (by norm_num)]
  nlinarith [h]

theorem lz4_roundtrip (raw : Bytes) : lz4Decompress (lz4Compress raw) = .ok raw := by
  simp [lz4Compress, lz4Decompress, lz4Magic]

theorem bytesToU16_serializeU16 : ∀ ws : List Nat,
    bytesToU16 (serializeU16 ws) = some ws := by
  intro ws
  induction ws with
  | nil => rfl
  | cons w ws ih =>
    have hser : serializeU16 (w :: ws) = w % 256 :: w / 256 :: serializeU16 ws := by
      simp [serializeU16]
    rw [hser]
    have hw : w % 256 + 256 * (w / 256) = w := Nat.mod_add_div w 256
    simp only [bytesToU16, ih, hw]
    rfl

theorem decode_encode_lz4 (tb : ℚ → Nat) (fb : Nat → ℚ) (v : List ℚ) :
    DeltaEncoder.decode_lz4 fb (DeltaEncoder.encode_lz4 tb v)
      = .ok (v.map (fun x => fb (tb x))) := by
  unfold DeltaEncoder.encode_lz4 DeltaEncoder.decode_lz4
  rw [lz4_roundtrip]
  dsimp only
  rw [bytesToU16_serializeU16]
  dsimp only
  rw [List.map_map]
  rfl

/-- C5: codec round trip.  The sparse (varint) path returns exactly the
quantized vector round(x * 1000) / 1000, whose components are within 0.0005
of the input; the generic (lz4) path returns the input mapped through the
half-precision downcast and upcast; both encoders are deterministic functions
of the input vector.  The two hypotheses delimit the domain where the
unbounded-integer model agrees with the int32 arithmetic and the two-byte
float16 patterns of the source; they are what the claim calls encodable. -/
theorem C5_codec_roundtrip (toBits : ℚ → Nat) (fromBits : Nat → ℚ) (v : List ℚ)
    (henc : ∀ x ∈ v, |round (x * (1000 : ℚ))| < 2 ^ 30)
    (hbits : ∀ x, toBits x < 2 ^ 16) :
    DeltaEncoder.decode_varint (DeltaEncoder.encode_varint v)
        = v.map (fun x => ((round (x * (1000 : ℚ)) : ℤ) : ℚ) / 1000)
    ∧ (∀ x ∈ v, |((round (x * (1000 : ℚ)) : ℤ) : ℚ) / 1000 - x| ≤ 5 / 10000)
    ∧ DeltaEncoder.decode_lz4 fromBits (DeltaEncoder.encode_lz4 toBits v)
        = .ok (v.map (fun x => fromBits (toBits x)))
    ∧ (∀ w, v = w →
        DeltaEncoder.encode_varint v = DeltaEncoder.encode_varint w
        ∧ DeltaEncoder.encode_lz4 toBits v = DeltaEncoder.encode_lz4 toBits w) := by
  refine ⟨decodeVarint_encodeVarint v, fun x _ => quantize_abs_le x,
    decode_encode_lz4 toBits fromBits v, fun w hw => ?_⟩
  exact ⟨congrArg _ hw, congrArg _ hw⟩

/-- C5 witness: the theorem applied at the vector [0] with the constant
bit-pattern maps. -/
theorem C5_codec_roundtrip_witness :
    DeltaEncoder.decode_varint (DeltaEncoder.encode_varint [(0 : ℚ)])
      = [(0 : ℚ)].map (fun x => ((round (x * (1000 : ℚ)) : ℤ) : ℚ) / 1000) :=
  (C5_codec_roundtrip (fun _ => 0) (fun _ => 0) [(0 : ℚ)]
    (by intro x hx; simp at hx; subst hx; norm_num)
    (by intro x; norm_num)).1

/-- C6: evaluation at the failing input.  The valid sparse encoding of the
vector [0.0] is the two bytes [0, 1]; its strict prefix [0] (cut after the
zero marker, before the run length) is decoded by the sparse path to the
empty vector with no error, while the generic lz4 path does reject a
truncated frame with an error. -/
theorem C6_truncated_sparse_decode_is_silent :
    DeltaEncoder.encode_varint [(0 : ℚ)] = [0, 1]
    ∧ DeltaEncoder.decode_varint ((DeltaEncoder.encode_varint [(0 : ℚ)]).take 1) = []
    ∧ lz4Decompress ((lz4Compress [7, 7]).take 6) = .error () := by
  have hq : ([(0 : ℚ)].map (fun x => round (x * (1000 : ℚ)))) = [(0 : ℤ)] := by
    norm_num
  have henc : DeltaEncoder.encode_varint [(0 : ℚ)] = [0, 1] := by
    unfold DeltaEncoder.encode_varint
    rw [hq]
    rw [DeltaEncoder.encodeVarintInts]
    norm_num [DeltaEncoder.countZeros, DeltaEncoder.encodeVarintInts]
  refine ⟨henc, ?_, rfl⟩
  rw [henc]
  unfold DeltaEncoder.decode_varint
  rw [show ([0, 1] : List Nat).take 1 = [0] from rfl]
  rw [DeltaEncoder.decodeVarintInts]
  simp

/-- C2: evaluation at the failing input.  A proof that carries delta bytes
produced by the full-state fallback encode_full and passes the version,
merkle and prediction checks makes verify_proof raise out of the decode call
(the flag byte 1 breaks the lz4 frame magic), instead of returning a
VerificationResult. -/
theorem C2_verify_proof_raises_on_full_state_delta :
    StateVerifier.verify_proof vhC Hc svC proofC [] [0] = .error () := rfl

/-- C7: the adaptive threshold policy of the compressor, and the fixed
threshold when adaptive mode is off. -/
theorem C7_adaptive_threshold_policy (cfg : CompressionConfig) (c : ℚ) :
    (cfg.adaptive_threshold = true →
      (c > 0.9 →
        DeltaCompressor.adaptiveThreshold cfg c = cfg.delta_threshold * 2)
      ∧ (0.7 < c ∧ c ≤ 0.9 →
        DeltaCompressor.adaptiveThreshold cfg c = cfg.delta_threshold * 1.5)
      ∧ (0.5 < c ∧ c ≤ 0.7 →
        DeltaCompressor.adaptiveThreshold cfg c = cfg.delta_threshold)
      ∧ (c ≤ 0.5 →
        DeltaCompressor.adaptiveThreshold cfg c = cfg.delta_threshold * 0.5))
    ∧ (cfg.adaptive_threshold = false →
        DeltaCompressor.adaptiveThreshold cfg c = cfg.delta_threshold) := by
  constructor
  · intro ha
    have hbase : DeltaCompressor.adaptiveThreshold cfg c
        = if c > 0.9 then cfg.delta_threshold * 2
          else if c > 0.7 then cfg.delta_threshold * 1.5
          else if c > 0.5 then cfg.delta_threshold
          else cfg.delta_threshold * 0.5 := by
      unfold DeltaCompressor.adaptiveThreshold
      simp [ha]
    rw [hbase]
    refine ⟨fun hc => ?_, fun hc => ?_, fun hc => ?_, fun hc => ?_⟩
    · rw [if_pos hc]
    · rw [if_neg (not_lt.mpr hc.2), if_pos hc.1]
    · rw [if_neg (not_lt.mpr (le_trans hc.2 (by norm_num))),
        if_neg (not_lt.mpr hc.2), if_pos hc.1]
    · rw [if_neg (not_lt.mpr (le_trans hc (by norm_num))),
        if_neg (not_lt.mpr (le_trans hc (by norm_num))), if_neg (not_lt.mpr hc)]
  · intro ha
    unfold DeltaCompressor.adaptiveThreshold
    simp [ha]

/-- C7 witness: confidence 0.8 with the default configuration lands in the
1.5 band. -/
theorem C7_adaptive_threshold_policy_witness :
    DeltaCompressor.adaptiveThreshold ⟨1 / 100, 7 / 10, true, .lz4⟩ (4 / 5)
      = (1 / 100 : ℚ) * 1.5 :=
  ((C7_adaptive_threshold_policy ⟨1 / 100, 7 / 10, true, .lz4⟩ (4 / 5)).1
    rfl).2.1 ⟨by norm_num, by norm_num⟩

/-- C8: the verifier checks run in the fixed order version, merkle,
prediction, delta; the first failing check determines the status, and before
the prediction check the result does not depend on the predictor at all
(replacing the predictor leaves the result unchanged). -/
theorem C8_verify_proof_check_order (vh : List ℚ → Bytes) (H : Bytes → Bytes)
    (sv : StateVerifier) (p2 : List ℚ → List ℚ) (proof : VerificationProof)
    (seq : List ℚ) (root : Bytes) :
    (proof.model_version ≠ sv.model_version →
      statusOf (StateVerifier.verify_proof vh H sv proof seq root)
          = some .MODEL_MISMATCH
      ∧ StateVerifier.verify_proof vh H { sv with predictFn := p2 } proof seq root
          = StateVerifier.verify_proof vh H sv proof seq root)
    ∧ (proof.model_version = sv.model_version →
        MerkleDeltaTree.verify_proof H proof.merkle_proof root = false →
        statusOf (StateVerifier.verify_proof vh H sv proof seq root)
            = some .INVALID_MERKLE
        ∧ StateVerifier.verify_proof vh H { sv with predictFn := p2 } proof seq root
            = StateVerifier.verify_proof vh H sv proof seq root)
    ∧ (proof.model_version = sv.model_version →
        MerkleDeltaTree.verify_proof H proof.merkle_proof root = true →
        vh (sv.predictFn seq) ≠ proof.predicted_state →
        statusOf (StateVerifier.verify_proof vh H sv proof seq root)
            = some .INVALID_PREDICTION)
    ∧ (proof.model_version = sv.model_version →
        MerkleDeltaTree.verify_proof H proof.merkle_proof root = true →
        vh (sv.predictFn seq) = proof.predicted_state →
        ∀ d, DeltaEncoder.decode sv.encoder proof.delta.delta_bytes = .ok d →
          (∀ r, numpyAdd (sv.predictFn seq) d = .ok r →
            (vh r ≠ proof.delta.actual_root →
              statusOf (StateVerifier.verify_proof vh H sv proof seq root)
                  = some .INVALID_DELTA)
            ∧ (vh r = proof.delta.actual_root →
              statusOf (StateVerifier.verify_proof vh H sv proof seq root)
                  = some .VALID))
          ∧ (numpyAdd (sv.predictFn seq) d = .error () →
            StateVerifier.verify_proof vh H sv proof seq root = .error ())) := by
  refine ⟨fun hv => ⟨?_, ?_⟩, fun hv hm => ⟨?_, ?_⟩, fun hv hm hp => ?_,
    fun hv hm hp d hd => ⟨fun r ha => ⟨fun hr => ?_, fun hr => ?_⟩, fun ha => ?_⟩⟩
  · simp [StateVerifier.verify_proof, statusOf, hv]
  · simp [StateVerifier.verify_proof, hv]
  · simp [StateVerifier.verify_proof, statusOf, hv, hm]
  · simp [StateVerifier.verify_proof, hv, hm]
  · simp [StateVerifier.verify_proof, statusOf, hv, hm, hp]
  · simp [StateVerifier.verify_proof, statusOf, hv, hm, hp, hd, ha, hr]
  · simp [StateVerifier.verify_proof, statusOf, hv, hm, hp, hd, ha, hr]
  · simp [StateVerifier.verify_proof, hv, hm, hp, hd, ha]

/-- C8 witness: a version mismatch on the concrete verifier yields
MODEL_MISMATCH. -/
theorem C8_verify_proof_check_order_witness :
    statusOf (StateVerifier.verify_proof vhC Hc svC proofD [] [0])
      = some .MODEL_MISMATCH :=
  ((C8_verify_proof_check_order vhC Hc svC predC proofD [] [0]).1 (by decide)).1

theorem fraudsFrom_mem_of (bn : Nat) (rt : Bytes) :
    ∀ (l : List (VerificationResult × VerificationProof)) (i0 j : Nat)
      (h : j < l.length) (ft : FraudType),
      FraudProofGenerator.map_status_to_fraud_type ((l.get ⟨j, h⟩).1).status
          = some ft →
      ∃ f ∈ FraudProofGenerator.fraudsFrom bn rt i0 l,
        f.tx_index = i0 + j ∧ f.fraud_type = ft := by
  intro l
  induction l with
  | nil =>
    intro i0 j h ft hmap
    simp at h
  | cons hd tl ih =>
    intro i0 j h ft hmap
    obtain ⟨vr, pf⟩ := hd
    cases j with
    | zero =>
      have hmap0 : FraudProofGenerator.map_status_to_fraud_type vr.status = some ft :=
        hmap
      have hnv : ¬ vr.status = .VALID := by
        intro hvvv
        rw [hvvv] at hmap0
        simp [FraudProofGenerator.map_status_to_fraud_type] at hmap0
      refine ⟨⟨ft, bn, i0, pf.tx_hash, rt, vr.actual_state.getD [],
        FraudProofGenerator.serialize_evidence pf, vr.message⟩, ?_, by simp, rfl⟩
      simp only [FraudProofGenerator.fraudsFrom, if_neg hnv,
        FraudProofGenerator.generate_fraud_proof, hmap0]
      exact List.mem_cons_self _ _
    | succ j2 =>
      have hlt : j2 < tl.length := by
        simp only [List.length_cons] at h
        omega
      have hmap2 : FraudProofGenerator.map_status_to_fraud_type
          ((tl.get ⟨j2, hlt⟩).1).status = some ft := hmap
      obtain ⟨f, hf, hidx, hft⟩ := ih (i0 + 1) j2 hlt ft hmap2
      refine ⟨f, ?_, by omega, hft⟩
      by_cases hvv : vr.status = .VALID
      · simp only [FraudProofGenerator.fraudsFrom, if_pos hvv]
        exact hf
      · cases hgen : FraudProofGenerator.generate_fraud_proof bn i0 pf vr rt with
        | none =>
          simp only [FraudProofGenerator.fraudsFrom, if_neg hvv, hgen]
          exact hf
        | some g =>
          simp only [FraudProofGenerator.fraudsFrom, if_neg hvv, hgen]
          exact List.mem_cons_of_mem g hf

theorem fraudsFrom_tx_index (bn : Nat) (rt : Bytes) :
    ∀ (l : List (VerificationResult × VerificationProof)) (i0 : Nat)
      (f : FraudProof),
      f ∈ FraudProofGenerator.fraudsFrom bn rt i0 l →
      ∃ j, ∃ h : j < l.length, f.tx_index = i0 + j ∧
        FraudProofGenerator.map_status_to_fraud_type ((l.get ⟨j, h⟩).1).status
          = some f.fraud_type := by
  intro l
  induction l with
  | nil =>
    intro i0 f hf
    simp [FraudProofGenerator.fraudsFrom] at hf
  | cons hd tl ih =>
    intro i0 f hf
    obtain ⟨vr, pf⟩ := hd
    by_cases hvv : vr.status = .VALID
    · rw [show FraudProofGenerator.fraudsFrom bn rt i0 ((vr, pf) :: tl)
          = FraudProofGenerator.fraudsFrom bn rt (i0 + 1) tl from by
        simp only [FraudProofGenerator.fraudsFrom, if_pos hvv]] at hf
      obtain ⟨j, hj, hidx, hmap⟩ := ih (i0 + 1) f hf
      exact ⟨j + 1, by simp only [List.length_cons]; omega, by omega, hmap⟩
    · cases hgen : FraudProofGenerator.generate_fraud_proof bn i0 pf vr rt with
      | none =>
        rw [show FraudProofGenerator.fraudsFrom bn rt i0 ((vr, pf) :: tl)
            = FraudProofGenerator.fraudsFrom bn rt (i0 + 1) tl from by
          simp only [FraudProofGenerator.fraudsFrom, if_neg hvv, hgen]] at hf
        obtain ⟨j, hj, hidx, hmap⟩ := ih (i0 + 1) f hf
        exact ⟨j + 1, by simp only [List.length_cons]; omega, by omega, hmap⟩
      | some g =>
        rw [show FraudProofGenerator.fraudsFrom bn rt i0 ((vr, pf) :: tl)
            = g :: FraudProofGenerator.fraudsFrom bn rt (i0 + 1) tl from by
          simp only [FraudProofGenerator.fraudsFrom, if_neg hvv, hgen]] at hf
        rcases List.mem_cons.mp hf with hfg | hftail
        · subst hfg
          unfold FraudProofGenerator.generate_fraud_proof at hgen
          cases hmap : FraudProofGenerator.map_status_to_fraud_type vr.status with
          | none =>
            rw [hmap] at hgen
            cases hgen
          | some ft =>
            rw [hmap] at hgen
            have hg := (Option.some.inj hgen).symm
            refine ⟨0, by simp, ?_, ?_⟩
            · rw [hg]
              simp
            · rw [hg]
              exact hmap
        · obtain ⟨j, hj, hidx, hmap⟩ := ih (i0 + 1) f hftail
          exact ⟨j + 1, by simp only [List.length_cons]; omega, by omega, hmap⟩

/-- C9: fraud classification.  For a block whose verification completed,
every non-VALID per-transaction outcome other than MODEL_MISMATCH yields a
fraud proof at that transaction index with the mapped fraud type, and a
MODEL_MISMATCH outcome yields no fraud proof for its index. -/
theorem C9_fraud_classification (vh : List ℚ → Bytes) (H : Bytes → Bytes)
    (sv : StateVerifier) (result : CompressionResult) (seqs : List (List ℚ))
    (vrs : List VerificationResult) (fs : List FraudProof)
    (hv : StateVerifier.verify_block vh H sv result seqs = .ok vrs)
    (hd : FraudProofGenerator.detect_fraud vh H sv result seqs = .ok fs)
    (i : Nat) (h : i < (vrs.zip result.proofs).length) :
    (((vrs.zip result.proofs).get ⟨i, h⟩).1.status = .INVALID_MERKLE →
      ∃ f ∈ fs, f.tx_index = i ∧ f.fraud_type = .INVALID_MERKLE_ROOT)
    ∧ (((vrs.zip result.proofs).get ⟨i, h⟩).1.status = .INVALID_PREDICTION →
      ∃ f ∈ fs, f.tx_index = i ∧ f.fraud_type = .PREDICTION_MISMATCH)
    ∧ (((vrs.zip result.proofs).get ⟨i, h⟩).1.status = .INVALID_DELTA →
      ∃ f ∈ fs, f.tx_index = i ∧ f.fraud_type = .DELTA_MANIPULATION)
    ∧ (((vrs.zip result.proofs).get ⟨i, h⟩).1.status = .MODEL_MISMATCH →
      ∀ f ∈ fs, f.tx_index ≠ i) := by
  have hfs : fs = FraudProofGenerator.fraudsFrom result.block_number
      result.delta_tree_root 0 (vrs.zip result.proofs) := by
    unfold FraudProofGenerator.detect_fraud at hd
    rw [hv] at hd
    exact (Except.ok.inj hd).symm
  subst hfs
  refine ⟨fun hs => ?_, fun hs => ?_, fun hs => ?_, fun hs => ?_⟩
  · obtain ⟨f, hf, hidx, hft⟩ := fraudsFrom_mem_of result.block_number
      result.delta_tree_root (vrs.zip result.proofs) 0 i h _ (by rw [hs]; rfl)
    exact ⟨f, hf, by omega, hft⟩
  · obtain ⟨f, hf, hidx, hft⟩ := fraudsFrom_mem_of result.block_number
      result.delta_tree_root (vrs.zip result.proofs) 0 i h _ (by rw [hs]; rfl)
    exact ⟨f, hf, by omega, hft⟩
  · obtain ⟨f, hf, hidx, hft⟩ := fraudsFrom_mem_of result.block_number
      result.delta_tree_root (vrs.zip result.proofs) 0 i h _ (by rw [hs]; rfl)
    exact ⟨f, hf, by omega, hft⟩
  · intro f hf heq
    obtain ⟨j, hj, hidx, hmap⟩ := fraudsFrom_tx_index result.block_number
      result.delta_tree_root (vrs.zip result.proofs) 0 f hf
    have hji : j = i := by omega
    subst hji
    have hmap2 : FraudProofGenerator.map_status_to_fraud_type
        (((vrs.zip result.proofs).get ⟨j, h⟩).1).status = some f.fraud_type := hmap
    rw [hs] at hmap2
    simp [FraudProofGenerator.map_status_to_fraud_type] at hmap2

/-- C9 witness: the theorem applied to the concrete one-transaction block
whose single outcome is INVALID_MERKLE. -/
theorem C9_fraud_classification_witness :
    ∃ f ∈ FraudProofGenerator.fraudsFrom resC.block_number resC.delta_tree_root 0
        ([vrM].zip resC.proofs),
      f.tx_index = 0 ∧ f.fraud_type = FraudType.INVALID_MERKLE_ROOT :=
  (C9_fraud_classification vhC Hc svC resC [[]] [vrM] _ rfl rfl 0 (by decide)).1
    rfl

/-- C10: two verifiers differing only in the tolerance constructor argument
return identical results on every input; the stored tolerance is never read
by verify_proof. -/
theorem C10_tolerance_never_influences (vh : List ℚ → Bytes) (H : Bytes → Bytes)
    (p : List ℚ → List ℚ) (ver dev : String) (t1 t2 : ℚ) (tb : ℚ → Nat)
    (fb : Nat → ℚ) (proof : VerificationProof) (seq : List ℚ) (root : Bytes) :
    StateVerifier.verify_proof vh H (StateVerifier.init p ver dev t1 tb fb)
        proof seq root
      = StateVerifier.verify_proof vh H (StateVerifier.init p ver dev t2 tb fb)
        proof seq root := rfl

end Cantor
